import Mathlib

/-!
Verification of the review-analysis backend (`pulse_python`).

This file gives a shallow embedding, in Lean 4, of the parts of the
repository that the specification's testable properties talk about:

* the review-text cleaner `_clean_review_text` / `clean_review_text`
  (app/services/crawler_service.py and crawling/playwright_crawler.py),
  including its ordered list of noise regular expressions, modelled as
  executable matchers over `List Char`;
* the raw-text deduplication loop of the collectors
  (`crawl_naver` / `crawl_naver_reviews`);
* the LLM report builder (`LLMService.generate_full_report`,
  `_generate_single_persona`, `generate_store_summary`,
  `_calculate_avg_rating` in app/services/llm_service.py and
  `calculate_avg_rating` in llm/persona_generator.py), with the outcomes
  of the external LLM calls abstracted as parameters;
* the background task routine `_process_analysis_task`
  (app/api/endpoints.py), modelled as the finite trace of task-record
  updates it performs.

Python's Unicode character classes are modelled on the alphabet that the
scraped review text actually uses: `\s` is the ASCII whitespace class,
`\d` the ASCII digits, and `\w` ASCII alphanumerics, underscore and the
Hangul blocks.  Python `float` arithmetic in the average-rating and
percentage computations is modelled by exact rationals, with `round(x, 1)`
modelled as round-half-to-even on rationals.
-/

namespace Pulse

/-! ## Character classes -/

/-- Python regex `\s` / `str.strip()` whitespace, restricted to the ASCII
whitespace characters (the review lines are split on `'\n'` upstream). -/
def isWsB (c : Char) : Bool :=
  c = ' ' || c = '\t' || c = '\n' || c = '\r' || c = '\x0b' || c = '\x0c'

/-- The symbol class `[+※~]` of the repeated-symbol collapsing step. -/
def isSymB (c : Char) : Bool :=
  c = '+' || c = '※' || c = '~'

/-- Hangul character ranges (syllables, jamo, compatibility jamo). -/
def isHangul (c : Char) : Bool :=
  (0xAC00 ≤ c.val && c.val ≤ 0xD7A3) ||
  (0x1100 ≤ c.val && c.val ≤ 0x11FF) ||
  (0x3130 ≤ c.val && c.val ≤ 0x318F)

/-- Python regex `\w`, on the alphabet relevant to this repository:
ASCII alphanumerics, underscore, and Hangul. -/
def isWordB (c : Char) : Bool :=
  c.isAlphanum || c = '_' || isHangul c

/-! ## Pattern-matching combinators

Each noise regular expression of the cleaner is compiled by hand into a
prefix matcher `List Char → Option (List Char)` returning the unconsumed
rest.  `re.search` is `searchB`: try the prefix matcher at every start
position.  In every pattern below a greedy `\s+`/`\d+`/`\s*` is followed
by a token from a disjoint character class, so maximal munch is a
complete existence test. -/

/-- Match a literal string, returning the rest. -/
def litP : List Char → List Char → Option (List Char)
  | [], l => some l
  | _ :: _, [] => none
  | p :: ps, c :: cs => if c = p then litP ps cs else none

/-- Match one character of a class. -/
def oneP (f : Char → Bool) : List Char → Option (List Char)
  | [] => none
  | c :: cs => if f c then some cs else none

/-- Greedy `f+`: one or more characters of a class. -/
def plusP (f : Char → Bool) : List Char → Option (List Char)
  | [] => none
  | c :: cs => if f c then some (cs.dropWhile f) else none

/-- Greedy `f*`: zero or more characters of a class. -/
def starP (f : Char → Bool) (l : List Char) : List Char :=
  l.dropWhile f

/-- `c?`: an optional single character. -/
def optCharP (k : Char) : List Char → List Char
  | [] => []
  | l@(c :: cs) => if c = k then cs else l

/-- `re.search`: does the prefix matcher fire at some position? -/
def searchB (m : List Char → Bool) : List Char → Bool
  | [] => m []
  | l@(_ :: rest) => m l || searchB m rest

/-- Substring containment (an alternation branch that is a plain literal). -/
def containsLit (p : String) (l : List Char) : Bool :=
  searchB (fun t => (litP p.toList t).isSome) l

/-- `\d{1,2}` followed by a literal character `k`, returning the rest. -/
def d12P (k : Char) : List Char → Option (List Char)
  | [] => none
  | a :: rest =>
    if a.isDigit then
      match rest with
      | [] => none
      | b :: r2 =>
        if b = k then some r2
        else if b.isDigit then
          match r2 with
          | [] => none
          | c :: r3 => if c = k then some r3 else none
        else none
    else none

/-! ## The ordered noise patterns

One matcher per entry of `noise_patterns` (identical lists in
crawler_service.py and playwright_crawler.py). -/

/-- `^리뷰\s+\d+` (anchored). -/
def noise1 (l : List Char) : Bool :=
  (((litP "리뷰".toList l).bind (plusP isWsB)).bind (oneP Char.isDigit)).isSome

/-- `^사진\s+\d+` (anchored). -/
def noise2 (l : List Char) : Bool :=
  (((litP "사진".toList l).bind (plusP isWsB)).bind (oneP Char.isDigit)).isSome

/-- `팔로워?\s+\d+` at one position. -/
def noise3At (l : List Char) : Bool :=
  (((litP "팔로".toList l).map (optCharP '워')).bind (plusP isWsB)
    |>.bind (oneP Char.isDigit)).isSome

/-- `^\d+\s*팔로우` (anchored). -/
def noise4 (l : List Char) : Bool :=
  (((plusP Char.isDigit l).map (starP isWsB)).bind (litP "팔로우".toList)).isSome

/-- `방문일\s+\d+\.\d+\.` at one position. -/
def noise5At (l : List Char) : Bool :=
  ((litP "방문일".toList l).bind (plusP isWsB)
    |>.bind (plusP Char.isDigit) |>.bind (litP ".".toList)
    |>.bind (plusP Char.isDigit) |>.bind (litP ".".toList)).isSome

/-- `\d{4}년\s+\d{1,2}월\s+\d{1,2}일` at one position. -/
def noise6At (l : List Char) : Bool :=
  ((oneP Char.isDigit l).bind (oneP Char.isDigit)
    |>.bind (oneP Char.isDigit) |>.bind (oneP Char.isDigit)
    |>.bind (litP "년".toList) |>.bind (plusP isWsB) |>.bind (d12P '월')
    |>.bind (plusP isWsB) |>.bind (d12P '일')).isSome

/-- `[일월화수목금토]요일` at one position. -/
def noise7At (l : List Char) : Bool :=
  ((oneP (fun c => c = '일' || c = '월' || c = '화' || c = '수' ||
      c = '목' || c = '금' || c = '토') l).bind (litP "요일".toList)).isSome

/-- `\d+번째\s+방문` at one position. -/
def noise8At (l : List Char) : Bool :=
  ((plusP Char.isDigit l).bind (litP "번째".toList)
    |>.bind (plusP isWsB) |>.bind (litP "방문".toList)).isSome

/-- `인증\s+수단` at one position. -/
def noise9At (l : List Char) : Bool :=
  (((litP "인증".toList l).bind (plusP isWsB)).bind (litP "수단".toList)).isSome

/-- `영수증|결제내역`. -/
def noise10 (l : List Char) : Bool :=
  containsLit "영수증" l || containsLit "결제내역" l

/-- `더\s*보기` at one position. -/
def noise11At (l : List Char) : Bool :=
  (((litP "더".toList l).map (starP isWsB)).bind (litP "보기".toList)).isSome

/-- `펼쳐보기`. -/
def noise12 (l : List Char) : Bool :=
  containsLit "펼쳐보기" l

/-- `반응\s+남기기` at one position. -/
def noise13At (l : List Char) : Bool :=
  (((litP "반응".toList l).bind (plusP isWsB)).bind (litP "남기기".toList)).isSome

/-- `개의\s+리뷰가\s+더\s+있습니다` at one position. -/
def noise14At (l : List Char) : Bool :=
  ((litP "개의".toList l).bind (plusP isWsB)
    |>.bind (litP "리뷰가".toList) |>.bind (plusP isWsB)
    |>.bind (litP "더".toList) |>.bind (plusP isWsB)
    |>.bind (litP "있습니다".toList)).isSome

/-- `^\s*[+※]\d+\s*$` (anchored at both ends). -/
def noise15 (l : List Char) : Bool :=
  match ((oneP (fun c => c = '+' || c = '※') (starP isWsB l)).bind
      (plusP Char.isDigit)).map (starP isWsB) with
  | some rest => rest.isEmpty
  | none => false

/-- `예약\s+없이\s+이용` at one position. -/
def noise16At (l : List Char) : Bool :=
  ((litP "예약".toList l).bind (plusP isWsB)
    |>.bind (litP "없이".toList) |>.bind (plusP isWsB)
    |>.bind (litP "이용".toList)).isSome

/-- `대기\s+시간\s+바로\s+입장` at one position. -/
def noise17At (l : List Char) : Bool :=
  ((litP "대기".toList l).bind (plusP isWsB)
    |>.bind (litP "시간".toList) |>.bind (plusP isWsB)
    |>.bind (litP "바로".toList) |>.bind (plusP isWsB)
    |>.bind (litP "입장".toList)).isSome

/-- `[저점]심에?\s+방문` at one position. -/
def noise18At (l : List Char) : Bool :=
  ((oneP (fun c => c = '저' || c = '점') l).bind (litP "심".toList)
    |>.map (optCharP '에') |>.bind (plusP isWsB)
    |>.bind (litP "방문".toList)).isSome

/-- `일상|친목|데이트|나들이`. -/
def noise19 (l : List Char) : Bool :=
  containsLit "일상" l || containsLit "친목" l ||
  containsLit "데이트" l || containsLit "나들이" l

/-- `혼자|연인・배우자|친구|가족|아이`. -/
def noise20 (l : List Char) : Bool :=
  containsLit "혼자" l || containsLit "연인・배우자" l ||
  containsLit "친구" l || containsLit "가족" l || containsLit "아이" l

/-- `@\w+` at one position. -/
def noise21At (l : List Char) : Bool :=
  ((litP "@".toList l).bind (oneP isWordB)).isSome

/-- `any(re.search(p, line) for p in noise_patterns)`: the line matches at
least one of the 21 ordered noise patterns. -/
def isNoiseB (l : List Char) : Bool :=
  noise1 l || noise2 l || searchB noise3At l || noise4 l ||
  searchB noise5At l || searchB noise6At l || searchB noise7At l ||
  searchB noise8At l || searchB noise9At l || noise10 l ||
  searchB noise11At l || noise12 l || searchB noise13At l ||
  searchB noise14At l || noise15 l || searchB noise16At l ||
  searchB noise17At l || searchB noise18At l || noise19 l ||
  noise20 l || searchB noise21At l

/-! ## The cleaner pipeline -/

/-- `text.split('\n')`. -/
def splitNl : List Char → List (List Char)
  | [] => [[]]
  | c :: rest =>
    if c = '\n' then [] :: splitNl rest
    else
      match splitNl rest with
      | [] => [[c]]
      | r :: rs => (c :: r) :: rs

/-- Drop trailing whitespace (structural form of reverse-dropWhile-reverse). -/
def stripR : List Char → List Char
  | [] => []
  | c :: rest =>
    match stripR rest with
    | [] => if isWsB c then [] else [c]
    | r => c :: r

/-- `str.strip()`. -/
def stripL (l : List Char) : List Char :=
  stripR (l.dropWhile isWsB)

/-- State machine for `re.sub(r'\s+', ' ', ...)`: the flag records whether
the previous character was whitespace (already replaced by `' '`). -/
def collapseWsAux : Bool → List Char → List Char
  | _, [] => []
  | prevWs, c :: rest =>
    if isWsB c then
      if prevWs then collapseWsAux true rest
      else ' ' :: collapseWsAux true rest
    else c :: collapseWsAux false rest

/-- `re.sub(r'\s+', ' ', text)`. -/
def collapseWs (l : List Char) : List Char :=
  collapseWsAux false l

/-- State machine for `re.sub(r'[+※~]{2,}', '', ...)`: inside a run of
symbol characters the state holds the first symbol and the run length so
far; a run of length 1 is kept, a longer run is deleted. -/
def csAux : Option Char → Nat → List Char → List Char
  | none, _, [] => []
  | some c, n, [] => if n = 1 then [c] else []
  | none, _, x :: rest =>
    if isSymB x then csAux (some x) 1 rest else x :: csAux none 0 rest
  | some c, n, x :: rest =>
    if isSymB x then csAux (some c) (n + 1) rest
    else (if n = 1 then [c] else []) ++ x :: csAux none 0 rest

/-- `re.sub(r'[+※~]{2,}', '', text)`. -/
def collapseSyms (l : List Char) : List Char :=
  csAux none 0 l

/-- `' '.join(lines)`. -/
def joinSpace : List (List Char) → List Char
  | [] => []
  | [x] => x
  | x :: xs => x ++ ' ' :: joinSpace xs

/-- `line.startswith('"') and any(k in line for k in short_keywords)`. -/
def quotedKw (kws : List String) (l : List Char) : Bool :=
  (match l with | '"' :: _ => true | _ => false) &&
  kws.any (fun k => containsLit k l)

/-- `re.match(r'^\d+$', line)`: the line is non-empty and purely digits. -/
def pyAllDigits (l : List Char) : Bool :=
  !l.isEmpty && l.all Char.isDigit

/-- A stripped line survives the per-line filter of the cleaner: it is not
a quoted UI chip, not purely numeric, matches no noise pattern, and is
longer than 3 characters.  (The empty line is excluded by the length
test, like `if not line: continue` in the source.) -/
def keepLineB (kws : List String) (l : List Char) : Bool :=
  !quotedKw kws l && !pyAllDigits l && !isNoiseB l && decide (3 < l.length)

/-- The stripped lines of the input that the cleaner keeps and joins. -/
def keptLines (kws : List String) (text : List Char) : List (List Char) :=
  ((splitNl text).map stripL).filter (keepLineB kws)

/-- The body shared by `CrawlerService._clean_review_text` and
`clean_review_text`, which differ only in their `short_keywords` list:
split on line breaks, strip and filter each line, join with single
spaces, collapse `[+※~]{2,}` runs and whitespace runs, strip. -/
def cleanCore (kws : List String) (text : List Char) : List Char :=
  stripL (collapseWs (collapseSyms (joinSpace (keptLines kws text))))

/-- `short_keywords` of `CrawlerService._clean_review_text`. -/
def serviceShortKeywords : List String :=
  ["음식이 맛있어요", "매장이 청결해요", "친절해요", "가성비가 좋아요"]

/-- `short_keywords` of `clean_review_text` in playwright_crawler.py. -/
def playwrightShortKeywords : List String :=
  ["음식이 맛있어요", "매장이 청결해요", "친절해요", "가성비가 좋아요",
   "양이 많아요", "매장이 넓어요", "혼밥하기 좋아요", "특별한 메뉴가 있어요",
   "재료가 신선해요", "인테리어가 멋져요", "단체모임 하기 좋아요",
   "뷰가 좋아요", "특별한 날 가기 좋아요", "화장실이 깨끗해요",
   "차분한 분위기예요", "대화하기 좋아요", "아늑해요", "아이와 가기 좋아요",
   "메뉴 구성이 알차요"]

namespace CrawlerService

/-- `CrawlerService._clean_review_text` (app/services/crawler_service.py). -/
def clean_review_text (s : String) : String :=
  ⟨cleanCore serviceShortKeywords s.data⟩

end CrawlerService

/-- `clean_review_text` (crawling/playwright_crawler.py). -/
def clean_review_text (s : String) : String :=
  ⟨cleanCore playwrightShortKeywords s.data⟩

/-! ## Collector deduplication (crawl_naver / crawl_kakao / crawl_naver_reviews)

Each pass of the scroll loop produces a batch `temp_reviews`; the loop
then appends each batch element whose `raw_text` is not already the
`raw_text` of a collected review.  The browser interaction itself is not
modelled: the batches are arbitrary. -/

/-- A review dict as built by the collectors. -/
structure RawReview where
  raw_text : String
  text : String
  rating : Option Int
  date : Option String
  source : String
deriving DecidableEq

/-- One pass of the duplicate-dropping loop: `unique_texts` is the set of
`raw_text`s of the reviews collected so far, and each batch element not in
it is appended (and its text added to the set). -/
def dedupeStep (acc : List RawReview) (batch : List RawReview) : List RawReview :=
  batch.foldl
    (fun acc r =>
      if acc.any (fun x => x.raw_text == r.raw_text) then acc else acc ++ [r])
    acc

/-- The collection run of `crawl_naver`: fold the duplicate-dropping pass
over the successive batches, starting from the empty list, and return
`reviews[:max_reviews]`. -/
def crawlNaverCollect (batches : List (List RawReview)) (maxReviews : Nat) :
    List RawReview :=
  ((batches.foldl dedupeStep []).take maxReviews)

/-- Pairwise distinctness of a list of strings, as an executable check. -/
def pairwiseDistinct : List String → Bool
  | [] => true
  | x :: rest => !rest.contains x && pairwiseDistinct rest

/-! ## LLM report generation (app/services/llm_service.py)

The outcomes of the OpenAI chat-completion calls are abstracted as
`Except`-valued parameters: `.error` covers both a raising call and
unparsable JSON content (`json.loads` raising inside the same `try`).
Prompt construction is pure string formatting whose value never reaches
the output, so it is not modelled. -/

/-- A review dict as consumed by the LLM service: produced by the
analysis stage, carrying a topic id. -/
structure RevT where
  raw_text : String
  text : String
  rating : Option ℚ
  topic : Int
deriving DecidableEq

/-- One journey stage of the persona JSON shape.  `painPoint` is absent
from the fallback object, hence optional. -/
structure StageData where
  label : String
  action : String
  thought : String
  type : String
  touchpoint : String
  painPoint : Option String
  opportunity : String
deriving DecidableEq

/-- The parsed persona JSON as a partial shape: `none` models an absent
key (so that `dict.get(key, default)` can be embedded faithfully). -/
structure PersonaData where
  nickname : Option String
  tags : Option (List String)
  summary : Option String
  journey : Option (List (String × StageData))
  overall_comment : Option String
  action_recommendation : Option String
deriving DecidableEq

/-- The persona object placed in the final report. -/
structure Persona where
  id : Nat
  nickname : String
  tags : List String
  img : String
  summary : String
  journey : List (String × StageData)
deriving DecidableEq

/-- The final report returned by `generate_full_report`. -/
structure Report where
  store_name : String
  average_rating : ℚ
  total_reviews : Nat
  store_summary : String
  personas : List Persona
deriving DecidableEq

/-- The analysis-result dict of `AnalysisService.run_analysis` in its
non-error shape. -/
structure AnalysisResult where
  topics : List (Int × List String)
  topic_counts : List (Int × Nat)
  reviews_with_topics : List RevT
  docs_count : Nat
deriving DecidableEq

/-- Round half to even on rationals (integer result). -/
def roundHalfEven (x : ℚ) : ℤ :=
  let f := ⌊x⌋
  let r := x - f
  if r < 1 / 2 then f
  else if 1 / 2 < r then f + 1
  else if f % 2 = 0 then f else f + 1

/-- Python `round(x, 1)`, modelled exactly on rationals. -/
def pyRound1 (x : ℚ) : ℚ :=
  (roundHalfEven (x * 10) : ℚ) / 10

namespace LLMService

/-- `LLMService._calculate_avg_rating`: average the non-null ratings,
rounded to one decimal; `0.0` when no rating is present. -/
def calculate_avg_rating (reviews : List RevT) : ℚ :=
  let ratings := reviews.filterMap (·.rating)
  if ratings = [] then 0
  else pyRound1 (ratings.sum / (ratings.length : ℚ))

/-- The static fallback journey of `_generate_single_persona`. -/
def fallbackJourney : List (String × StageData) :=
  [("explore", ⟨"탐색", "-", "-", "neutral", "-", none, "-"⟩),
   ("visit", ⟨"방문", "-", "-", "neutral", "-", none, "-"⟩),
   ("eat", ⟨"식사", "-", "-", "neutral", "-", none, "-"⟩),
   ("share", ⟨"공유", "-", "-", "neutral", "-", none, "-"⟩)]

/-- The static fallback persona object of `_generate_single_persona`. -/
def fallbackPersona (topic_id : Int) : PersonaData where
  nickname := some ("고객 그룹 " ++ toString topic_id)
  tags := some ["분석 실패"]
  summary := some "데이터를 분석하는 중 오류가 발생했습니다."
  journey := some fallbackJourney
  overall_comment := some "데이터 분석 중 오류가 발생하여 총평을 생성할 수 없습니다."
  action_recommendation := some "다시 분석을 시도해주세요."

/-- `LLMService._generate_single_persona`: return the parsed LLM JSON, or
the fallback object if the call raised or its content failed to parse.
The keyword, review-sample, store-name and percentage arguments only feed
the prompt. -/
def generate_single_persona (topic_id : Int) (_keywords : List String)
    (_reviews : List RevT) (_store_name : String) (_percentage : ℚ)
    (call : Except String PersonaData) : PersonaData :=
  match call with
  | .ok d => d
  | .error _ => fallbackPersona topic_id

/-- `LLMService.generate_store_summary`: the stripped LLM response, or
the templated `f"{store_name} (평점 {avg_rating})"` fallback if the call
raised. -/
def generate_store_summary (reviews : List RevT)
    (_topics : List (Int × List String)) (store_name : String)
    (call : Except String String) : String :=
  match call with
  | .ok s => s
  | .error _ => store_name ++ " (평점 " ++ toString (calculate_avg_rating reviews) ++ ")"

end LLMService

/-- Insert into a sorted list (ascending). -/
def insertSorted (x : Int) : List Int → List Int
  | [] => [x]
  | y :: rest => if x ≤ y then x :: y :: rest else y :: insertSorted x rest

/-- Python `sorted` on a list of ints. -/
def sortInts (l : List Int) : List Int :=
  l.foldr insertSorted []

/-- `topic_counts[t_id]`: a missing key raises `KeyError`. -/
def lookupCount (counts : List (Int × Nat)) (t : Int) : Except String Nat :=
  match counts.find? (fun p => p.1 == t) with
  | some p => .ok p.2
  | none => .error ("KeyError: " ++ toString t)

/-- The seed list for the DiceBear avatar URL. -/
def dicebearSeeds : List String :=
  ["happy-woman-1", "happy-man-2", "happy-woman-2", "happy-man-1", "happy-woman-3"]

/-- The background-color list for the DiceBear avatar URL. -/
def dicebearBgs : List String :=
  ["fef3c7", "d1fae5", "fce7f3", "e0f2fe", "fef9c3"]

/-- The avatar URL built for persona slot `idx`. -/
def dicebearUrl (idx : Nat) : String :=
  "https://api.dicebear.com/7.x/notionists/svg?seed="
    ++ (dicebearSeeds.getD (idx % 5) "") ++ "&backgroundColor="
    ++ (dicebearBgs.getD (idx % 5) "")

/-- The outcomes of the LLM calls made during one report generation. -/
structure LLMEnv where
  topicCall : Int → Except String PersonaData
  summaryCall : Except String String

namespace LLMService

/-- The result-mapping step of the persona loop in `generate_full_report`:
`p_data.get(...)` with its defaults. -/
def mkPersona (idx : Nat) (t : Int) (p : PersonaData) : Persona where
  id := idx + 1
  nickname := p.nickname.getD ("그룹 " ++ toString t)
  tags := p.tags.getD []
  img := dicebearUrl idx
  summary := p.summary.getD ""
  journey := p.journey.getD []

/-- The topic loop of `generate_full_report`: for each selected topic look
up its count (KeyError propagates), compute its percentage
(ZeroDivisionError propagates when `docs_count = 0`), generate the
persona, and map it into the report shape. -/
def buildPersonas (env : LLMEnv) (ar : AnalysisResult) (store_name : String) :
    Nat → List Int → Except String (List Persona)
  | _, [] => .ok []
  | idx, t :: ts => do
    let count ← lookupCount ar.topic_counts t
    if ar.docs_count = 0 then
      throw "ZeroDivisionError: division by zero"
    else
      let percentage := pyRound1 ((count : ℚ) / (ar.docs_count : ℚ) * 100)
      let keywords := ((ar.topics.find? (fun p => p.1 == t)).map (·.2)).getD []
      let topicReviews := ar.reviews_with_topics.filter (fun r => r.topic == t)
      let p := generate_single_persona t keywords topicReviews store_name
        percentage (env.topicCall t)
      let rest ← buildPersonas env ar store_name (idx + 1) ts
      return mkPersona idx t p :: rest

/-- `sorted(topics.keys())[:3]`: the at-most-3 topics that get personas. -/
def selectedTopics (ar : AnalysisResult) : List Int :=
  (sortInts (ar.topics.map (·.1))).take 3

/-- `LLMService.generate_full_report`: store summary (with internal
fallback), then one persona per selected topic, then the aggregate
report.  An uncaught error in the loop propagates. -/
def generate_full_report (env : LLMEnv) (store_name : String)
    (ar : AnalysisResult) : Except String Report := do
  let store_summary := generate_store_summary ar.reviews_with_topics
    ar.topics store_name env.summaryCall
  let personas ← buildPersonas env ar store_name 0 (selectedTopics ar)
  return { store_name := store_name
           average_rating := calculate_avg_rating ar.reviews_with_topics
           total_reviews := ar.docs_count
           store_summary := store_summary
           personas := personas }

end LLMService

namespace PersonaGenerator

/-- `calculate_avg_rating` (llm/persona_generator.py): identical body to
`LLMService._calculate_avg_rating`. -/
def calculate_avg_rating (reviews : List RevT) : ℚ :=
  let ratings := reviews.filterMap (·.rating)
  if ratings = [] then 0
  else pyRound1 (ratings.sum / (ratings.length : ℚ))

end PersonaGenerator

/-! ## Background task routine (app/api/endpoints.py)

`_process_analysis_task` mutates the in-memory task record through a
fixed sequence of `tasks[task_id].update(...)` calls.  The model returns
the trace of task-record states (the initial `pending` record followed by
the state after each update) together with the list of pipeline stages
the routine entered.  The MongoDB writes sit in their own
`try/except Exception` blocks whose failures are logged and swallowed, so
their outcomes do not appear in the trace. -/

/-- The task status enum. -/
inductive TStatus
  | pending
  | processing
  | completed
  | failed
deriving DecidableEq, BEq

/-- One state of the in-memory task record. -/
structure TaskRec where
  status : TStatus
  message : String
  progress : Nat
  result : Option Report
deriving DecidableEq

/-- The pipeline stages run by the background routine. -/
inductive Stage
  | collect
  | analyze
  | generate
deriving DecidableEq

/-- What `AnalysisService.run_analysis` returned: an `{"error": ...}`
dict, or the full result dict. -/
inductive AnalysisOut
  | err (msg : String)
  | res (r : AnalysisResult)

/-- The outcomes of the external interactions of one background run:
the collection result (or exception), the analysis result (or
exception), and the LLM call outcomes.  The MongoDB flags record
whether the two (swallowed) persistence writes fail. -/
structure Env where
  store_name : String
  address : String
  crawl : Except String (List RawReview)
  analysis : Except String AnalysisOut
  llm : LLMEnv
  mongoRawSaveFails : Bool
  mongoResultSaveFails : Bool

/-- The task record created by `request_analysis`. -/
def initialTask : TaskRec where
  status := .pending
  message := "작업 대기 중..."
  progress := 0
  result := none

/-- A `failed` update at progress 0 with the given message. -/
def failUpd (t : TaskRec) (msg : String) : TaskRec :=
  { t with status := .failed, message := msg, progress := 0 }

/-- `_process_analysis_task`: the trace of task-record states and the
stages entered.  Any uncaught exception (modelled by `.error`) lands in
the outer `except`, which records `"서버 내부 오류: " + str(e)` at
progress 0. -/
def processAnalysisTask (env : Env) : List TaskRec × List Stage :=
  let t0 := initialTask
  let t1 := { t0 with status := .processing,
                      message := "리뷰 데이터 수집 중 (네이버/카카오)", progress := 10 }
  match env.crawl with
  | .error e => ([t0, t1, failUpd t1 ("서버 내부 오류: " ++ e)], [.collect])
  | .ok reviews =>
    if reviews.isEmpty then
      ([t0, t1, failUpd t1 "리뷰를 찾을 수 없습니다."], [.collect])
    else
      let t2 := { t1 with message := "리뷰 토픽 분석 중 (AI)", progress := 40 }
      match env.analysis with
      | .error e =>
        ([t0, t1, t2, failUpd t2 ("서버 내부 오류: " ++ e)], [.collect, .analyze])
      | .ok (.err e) =>
        ([t0, t1, t2, failUpd t2 ("분석 실패: " ++ e)], [.collect, .analyze])
      | .ok (.res ar) =>
        let t3 := { t2 with message := "고객 페르소나 및 리포트 생성 중", progress := 70 }
        match LLMService.generate_full_report env.llm env.store_name ar with
        | .error e =>
          ([t0, t1, t2, t3, failUpd t3 ("서버 내부 오류: " ++ e)],
           [.collect, .analyze, .generate])
        | .ok rep =>
          ([t0, t1, t2, t3,
            { t3 with status := .completed, message := "분석 완료!",
                      progress := 100, result := some rep }],
           [.collect, .analyze, .generate])

/-- The trace of task-record states of one background run. -/
def taskTrace (env : Env) : List TaskRec :=
  (processAnalysisTask env).1

/-- The stages the background run entered, in order. -/
def executedStages (env : Env) : List Stage :=
  (processAnalysisTask env).2

/-- The task record left behind by the background run. -/
def finalTask (env : Env) : TaskRec :=
  (taskTrace env).getLastD initialTask

/-- A terminal task status. -/
def isTerminal (t : TaskRec) : Bool :=
  t.status == .completed || t.status == .failed

/-- An allowed single transition of the task state machine:
`pending → processing`, `processing → processing` without decreasing
progress, or `processing → {completed, failed}`. -/
def allowedStep (a b : TaskRec) : Bool :=
  (a.status == .pending && b.status == .processing) ||
  (a.status == .processing &&
    ((b.status == .processing && decide (a.progress ≤ b.progress)) ||
     b.status == .completed || b.status == .failed))

/-- The state-machine invariant of a trace: every consecutive pair is an
allowed transition, and no state before the last is terminal (so a
terminal state is never left). -/
def traceOk : List TaskRec → Bool
  | [] => true
  | [_] => true
  | a :: b :: rest => allowedStep a b && !isTerminal a && traceOk (b :: rest)

/-! ## Lemmas about the cleaner pipeline -/

theorem dropWhile_head_not (p : Char → Bool) :
    ∀ (l : List Char) c cs, l.dropWhile p = c :: cs → p c = false := by
  intro l
  induction l with
  | nil => intro c cs h; simp [List.dropWhile] at h
  | cons a as ih =>
    intro c cs h
    by_cases hp : p a = true
    · rw [List.dropWhile_cons, if_pos hp] at h
      exact ih c cs h
    · rw [List.dropWhile_cons, if_neg hp] at h
      cases h
      simpa using hp

theorem mem_dropWhile (p : Char → Bool) :
    ∀ (l : List Char) x, x ∈ l.dropWhile p → x ∈ l := by
  intro l
  induction l with
  | nil => intro x h; simp at h
  | cons a as ih =>
    intro x h
    by_cases hp : p a = true
    · rw [List.dropWhile_cons, if_pos hp] at h
      exact List.mem_cons_of_mem a (ih x h)
    · rw [List.dropWhile_cons, if_neg hp] at h
      exact h

theorem stripR_head :
    ∀ (l : List Char) x xs, stripR l = x :: xs → ∃ ys, l = x :: ys := by
  intro l x xs h
  cases l with
  | nil => simp [stripR] at h
  | cons c rest =>
    rw [stripR] at h
    rcases hs : stripR rest with _ | ⟨y, ys⟩ <;> rw [hs] at h
    · by_cases hw : isWsB c = true
      · rw [if_pos hw] at h; cases h
      · rw [if_neg hw] at h; cases h; exact ⟨rest, rfl⟩
    · cases h; exact ⟨rest, rfl⟩

theorem mem_stripR : ∀ (l : List Char) x, x ∈ stripR l → x ∈ l := by
  intro l
  induction l with
  | nil => intro x h; simp [stripR] at h
  | cons c rest ih =>
    intro x h
    rw [stripR] at h
    rcases hs : stripR rest with _ | ⟨y, ys⟩ <;> rw [hs] at h
    · by_cases hw : isWsB c = true
      · rw [if_pos hw] at h; simp at h
      · rw [if_neg hw] at h
        simp at h
        simp [h]
    · rcases List.mem_cons.1 h with h1 | h1
      · simp [h1]
      · exact List.mem_cons_of_mem c (ih x (hs ▸ h1))

theorem stripR_getLast_not_ws :
    ∀ (l : List Char) c, (stripR l).getLast? = some c → isWsB c = false := by
  intro l
  induction l with
  | nil => intro c h; simp [stripR] at h
  | cons a rest ih =>
    intro c h
    rw [stripR] at h
    rcases hs : stripR rest with _ | ⟨y, ys⟩ <;> rw [hs] at h
    · by_cases hw : isWsB a = true
      · rw [if_pos hw] at h; simp at h
      · rw [if_neg hw] at h
        simp at h
        exact h ▸ (by simpa using hw)
    · rw [List.getLast?_cons_cons] at h
      exact ih c (hs ▸ h)

theorem stripR_eq_self :
    ∀ (l : List Char), (∀ c, l.getLast? = some c → isWsB c = false) →
      stripR l = l := by
  intro l
  induction l with
  | nil => intro _; rfl
  | cons a rest ih =>
    intro h
    cases rest with
    | nil =>
      have ha : isWsB a = false := h a (by simp)
      simp [stripR, ha]
    | cons b bs =>
      have hr : stripR (b :: bs) = b :: bs := by
        apply ih
        intro c hc
        exact h c (by rw [List.getLast?_cons_cons]; exact hc)
      rw [stripR, hr]

theorem stripR_idem (l : List Char) : stripR (stripR l) = stripR l :=
  stripR_eq_self _ (stripR_getLast_not_ws l)

theorem stripL_idem (l : List Char) : stripL (stripL l) = stripL l := by
  unfold stripL
  have hA : (stripR (List.dropWhile isWsB l)).dropWhile isWsB
      = stripR (List.dropWhile isWsB l) := by
    rcases hs : stripR (List.dropWhile isWsB l) with _ | ⟨x, xs⟩
    · rfl
    · obtain ⟨ys, hy⟩ := stripR_head _ x xs hs
      have hx : isWsB x = false := dropWhile_head_not _ l x ys hy
      rw [List.dropWhile_cons, if_neg (by simp [hx])]
  rw [hA, stripR_idem]

theorem mem_stripL (l : List Char) (x : Char) (h : x ∈ stripL l) : x ∈ l :=
  mem_dropWhile _ l x (mem_stripR _ x h)

/-- The head of a list does not satisfy `p` (vacuously true for `[]`). -/
def headNot (p : Char → Bool) : List Char → Bool
  | [] => true
  | c :: _ => !p c

/-- No two adjacent characters of the list both satisfy `p`. -/
def noAdj (p : Char → Bool) : List Char → Bool
  | [] => true
  | c :: rest => (!p c || headNot p rest) && noAdj p rest

theorem noAdj_tail {p : Char → Bool} {c : Char} {l : List Char}
    (h : noAdj p (c :: l) = true) : noAdj p l = true := by
  rw [noAdj, Bool.and_eq_true] at h
  exact h.2

theorem noAdj_head {p : Char → Bool} {c : Char} {l : List Char}
    (h : noAdj p (c :: l) = true) : (!p c || headNot p l) = true := by
  rw [noAdj, Bool.and_eq_true] at h
  exact h.1

theorem noAdj_dropWhile (q p : Char → Bool) :
    ∀ (l : List Char), noAdj p l = true → noAdj p (l.dropWhile q) = true := by
  intro l
  induction l with
  | nil => intro h; exact h
  | cons a as ih =>
    intro h
    by_cases hq : q a = true
    · rw [List.dropWhile_cons, if_pos hq]
      exact ih (noAdj_tail h)
    · rw [List.dropWhile_cons, if_neg hq]
      exact h

theorem noAdj_stripR (p : Char → Bool) :
    ∀ (l : List Char), noAdj p l = true → noAdj p (stripR l) = true := by
  intro l
  induction l with
  | nil => intro h; exact h
  | cons a rest ih =>
    intro h
    rw [stripR]
    rcases hs : stripR rest with _ | ⟨y, ys⟩
    · by_cases hw : isWsB a = true
      · rw [if_pos hw]; rfl
      · rw [if_neg hw]; simp [noAdj, headNot]
    · have h2 : noAdj p (y :: ys) = true := hs ▸ ih (noAdj_tail h)
      obtain ⟨zs, hz⟩ := stripR_head rest y ys hs
      have h1 : (!p a || headNot p (y :: zs)) = true := hz ▸ noAdj_head h
      rw [noAdj, Bool.and_eq_true]
      exact ⟨h1, h2⟩

theorem noAdj_sym_csAux :
    ∀ (l : List Char),
      noAdj isSymB (csAux none 0 l) = true ∧
      (∀ c n, isSymB c = true → noAdj isSymB (csAux (some c) n l) = true) := by
  intro l
  induction l with
  | nil =>
    refine ⟨rfl, ?_⟩
    intro c n _
    by_cases hn : n = 1 <;> simp [csAux, hn, noAdj, headNot]
  | cons x rest ih =>
    constructor
    · by_cases hx : isSymB x = true
      · rw [csAux, if_pos hx]
        exact ih.2 x 1 hx
      · rw [csAux, if_neg hx, noAdj, Bool.and_eq_true]
        exact ⟨by simp [hx], ih.1⟩
    · intro c n hc
      by_cases hx : isSymB x = true
      · rw [csAux, if_pos hx]
        exact ih.2 c (n + 1) hc
      · rw [csAux, if_neg hx]
        by_cases hn : n = 1
        · rw [if_pos hn]
          simp only [List.cons_append, List.nil_append]
          rw [noAdj, Bool.and_eq_true]
          refine ⟨by simp [headNot, hx], ?_⟩
          rw [noAdj, Bool.and_eq_true]
          exact ⟨by simp [hx], ih.1⟩
        · rw [if_neg hn]
          simp only [List.nil_append]
          rw [noAdj, Bool.and_eq_true]
          exact ⟨by simp [hx], ih.1⟩

theorem headNot_sym_collapseWsAux_false (l : List Char)
    (h : headNot isSymB l = true) :
    headNot isSymB (collapseWsAux false l) = true := by
  cases l with
  | nil => rfl
  | cons c rest =>
    by_cases hw : isWsB c = true
    · rw [collapseWsAux, if_pos hw]; rfl
    · rw [collapseWsAux, if_neg hw]
      exact h

theorem noAdj_sym_collapseWsAux :
    ∀ (l : List Char) b, noAdj isSymB l = true →
      noAdj isSymB (collapseWsAux b l) = true := by
  intro l
  induction l with
  | nil => intro b _; cases b <;> rfl
  | cons c rest ih =>
    intro b h
    by_cases hw : isWsB c = true
    · cases b
      · rw [collapseWsAux, if_pos hw, if_neg (by simp : ¬(false = true))]
        rw [noAdj, Bool.and_eq_true]
        exact ⟨by simp [isSymB, headNot], ih true (noAdj_tail h)⟩
      · rw [collapseWsAux, if_pos hw]
        exact ih true (noAdj_tail h)
    · rw [collapseWsAux, if_neg hw]
      rw [noAdj, Bool.and_eq_true]
      refine ⟨?_, ih false (noAdj_tail h)⟩
      by_cases hc : isSymB c = true
      · have hh : (!isSymB c || headNot isSymB rest) = true := noAdj_head h
        rw [hc] at hh
        simp only [Bool.not_true, Bool.false_or] at hh
        have := headNot_sym_collapseWsAux_false rest hh
        simp [this]
      · simp [hc]

theorem all_not_ws_or_space_collapseWsAux :
    ∀ (l : List Char) b,
      (collapseWsAux b l).all (fun c => !isWsB c || c == ' ') = true := by
  intro l
  induction l with
  | nil => intro b; rfl
  | cons c rest ih =>
    intro b
    by_cases hw : isWsB c = true
    · cases b
      · rw [collapseWsAux, if_pos hw, if_neg (by simp : ¬(false = true))]
        rw [List.all_cons, Bool.and_eq_true]
        exact ⟨by simp, ih true⟩
      · rw [collapseWsAux, if_pos hw]
        exact ih true
    · rw [collapseWsAux, if_neg hw]
      rw [List.all_cons, Bool.and_eq_true]
      exact ⟨by simp [hw], ih false⟩

theorem headNot_ws_collapseWsAux_true :
    ∀ (l : List Char), headNot isWsB (collapseWsAux true l) = true := by
  intro l
  induction l with
  | nil => rfl
  | cons c rest ih =>
    by_cases hw : isWsB c = true
    · rw [collapseWsAux, if_pos hw]
      exact ih
    · rw [collapseWsAux, if_neg hw]
      simp [headNot, hw]

theorem noAdj_ws_collapseWsAux :
    ∀ (l : List Char) b, noAdj isWsB (collapseWsAux b l) = true := by
  intro l
  induction l with
  | nil => intro b; cases b <;> rfl
  | cons c rest ih =>
    intro b
    by_cases hw : isWsB c = true
    · cases b
      · rw [collapseWsAux, if_pos hw, if_neg (by simp : ¬(false = true))]
        rw [noAdj, Bool.and_eq_true]
        exact ⟨by simp [headNot_ws_collapseWsAux_true rest], ih true⟩
      · rw [collapseWsAux, if_pos hw]
        exact ih true
    · rw [collapseWsAux, if_neg hw]
      rw [noAdj, Bool.and_eq_true]
      exact ⟨by simp [hw], ih false⟩

theorem all_dropWhile (q : Char → Bool) (f : Char → Bool) :
    ∀ (l : List Char), l.all f = true → (l.dropWhile q).all f = true := by
  intro l
  induction l with
  | nil => intro h; exact h
  | cons a as ih =>
    intro h
    rw [List.all_cons, Bool.and_eq_true] at h
    by_cases hq : q a = true
    · rw [List.dropWhile_cons, if_pos hq]
      exact ih h.2
    · rw [List.dropWhile_cons, if_neg hq, List.all_cons, Bool.and_eq_true]
      exact h

theorem all_stripR (f : Char → Bool) (l : List Char) (h : l.all f = true) :
    (stripR l).all f = true := by
  rw [List.all_eq_true] at h ⊢
  intro x hx
  exact h x (mem_stripR l x hx)

/-! Identity of the two `re.sub` passes and of `strip` on strings that
already satisfy the invariants their output guarantees. -/

theorem csAux_some_one (l : List Char) (c : Char)
    (hh : headNot isSymB l = true) :
    csAux (some c) 1 l = c :: csAux none 0 l := by
  cases l with
  | nil => rfl
  | cons x r =>
    have hx : isSymB x = false := by
      simpa [headNot] using hh
    simp [csAux, hx]

theorem collapseSyms_id :
    ∀ (l : List Char), noAdj isSymB l = true → csAux none 0 l = l := by
  intro l
  induction l with
  | nil => intro _; rfl
  | cons x rest ih =>
    intro h
    by_cases hx : isSymB x = true
    · rw [csAux, if_pos hx]
      have hh : headNot isSymB rest = true := by
        have := noAdj_head h
        rw [hx] at this
        simpa using this
      rw [csAux_some_one rest x hh, ih (noAdj_tail h)]
    · rw [csAux, if_neg hx, ih (noAdj_tail h)]

theorem collapseWsAux_true_eq_false (l : List Char)
    (h : headNot isWsB l = true) :
    collapseWsAux true l = collapseWsAux false l := by
  cases l with
  | nil => rfl
  | cons x r =>
    have hx : isWsB x = false := by simpa [headNot] using h
    rw [collapseWsAux, if_neg (by simp [hx]),
        collapseWsAux, if_neg (by simp [hx])]

theorem collapseWs_id :
    ∀ (l : List Char), l.all (fun c => !isWsB c || c == ' ') = true →
      noAdj isWsB l = true → collapseWsAux false l = l := by
  intro l
  induction l with
  | nil => intro _ _; rfl
  | cons c rest ih =>
    intro hall hadj
    rw [List.all_cons, Bool.and_eq_true] at hall
    by_cases hw : isWsB c = true
    · have hsp : c = ' ' := by
        have := hall.1
        rw [hw] at this
        simpa using this
      have hh : headNot isWsB rest = true := by
        have := noAdj_head hadj
        rw [hw] at this
        simpa using this
      rw [collapseWsAux, if_pos hw, if_neg (by simp : ¬(false = true))]
      rw [collapseWsAux_true_eq_false rest hh, ih hall.2 (noAdj_tail hadj), hsp]
    · rw [collapseWsAux, if_neg hw, ih hall.2 (noAdj_tail hadj)]

/-! Splitting and joining. -/

theorem splitNl_ne_nil : ∀ (l : List Char), splitNl l ≠ [] := by
  intro l
  cases l with
  | nil => simp [splitNl]
  | cons c rest =>
    rw [splitNl]
    by_cases hc : c = '\n'
    · rw [if_pos hc]; simp
    · rw [if_neg hc]
      rcases hs : splitNl rest with _ | ⟨r, rs⟩ <;> simp

theorem mem_splitNl_not_nl :
    ∀ (text : List Char) l, l ∈ splitNl text → ∀ c ∈ l, c ≠ '\n' := by
  intro text
  induction text with
  | nil =>
    intro l hl c hc
    simp [splitNl] at hl
    subst hl
    simp at hc
  | cons a rest ih =>
    intro l hl c hc hn
    rw [splitNl] at hl
    by_cases ha : a = '\n'
    · rw [if_pos ha] at hl
      rcases List.mem_cons.1 hl with h1 | h1
      · subst h1; simp at hc
      · exact ih l h1 c hc hn
    · rw [if_neg ha] at hl
      rcases hs : splitNl rest with _ | ⟨r, rs⟩
      · exact splitNl_ne_nil rest hs
      · rw [hs] at hl
        rcases List.mem_cons.1 hl with h1 | h1
        · subst h1
          rcases List.mem_cons.1 hc with h2 | h2
          · exact ha (h2 ▸ hn)
          · exact ih r (hs ▸ List.mem_cons_self r rs) c h2 hn
        · exact ih l (hs ▸ List.mem_cons_of_mem r h1) c hc hn

theorem splitNl_eq_self :
    ∀ (l : List Char), (∀ c ∈ l, c ≠ '\n') → splitNl l = [l] := by
  intro l
  induction l with
  | nil => intro _; rfl
  | cons a rest ih =>
    intro h
    have ha : a ≠ '\n' := h a (List.mem_cons_self a rest)
    rw [splitNl, if_neg ha, ih (fun c hc => h c (List.mem_cons_of_mem a hc))]

theorem mem_joinSpace :
    ∀ (ls : List (List Char)) x, x ∈ joinSpace ls →
      x = ' ' ∨ ∃ l ∈ ls, x ∈ l := by
  intro ls
  induction ls with
  | nil => intro x h; simp [joinSpace] at h
  | cons l ls ih =>
    intro x h
    cases ls with
    | nil =>
      rw [joinSpace] at h
      exact Or.inr ⟨l, List.mem_cons_self l [], h⟩
    | cons l2 rest =>
      have hj : joinSpace (l :: l2 :: rest) = l ++ ' ' :: joinSpace (l2 :: rest) := rfl
      rw [hj] at h
      rcases List.mem_append.1 h with h1 | h1
      · exact Or.inr ⟨l, List.mem_cons_self l _, h1⟩
      · rcases List.mem_cons.1 h1 with h2 | h2
        · exact Or.inl h2
        · rcases ih x h2 with h3 | ⟨l3, hl3, hx3⟩
          · exact Or.inl h3
          · exact Or.inr ⟨l3, List.mem_cons_of_mem l hl3, hx3⟩

theorem mem_csAux :
    ∀ (l : List Char) st n x, x ∈ csAux st n l →
      x ∈ l ∨ ∃ c, st = some c ∧ x = c := by
  intro l
  induction l with
  | nil =>
    intro st n x h
    cases st with
    | none => simp [csAux] at h
    | some c =>
      rw [csAux] at h
      by_cases hn : n = 1
      · rw [if_pos hn] at h
        simp at h
        exact Or.inr ⟨c, rfl, h⟩
      · rw [if_neg hn] at h
        simp at h
  | cons a rest ih =>
    intro st n x h
    cases st with
    | none =>
      by_cases ha : isSymB a = true
      · rw [csAux, if_pos ha] at h
        rcases ih (some a) 1 x h with h1 | ⟨c, hc, hx⟩
        · exact Or.inl (List.mem_cons_of_mem a h1)
        · cases hc
          exact Or.inl (hx ▸ List.mem_cons_self a rest)
      · rw [csAux, if_neg ha] at h
        rcases List.mem_cons.1 h with h1 | h1
        · exact Or.inl (h1 ▸ List.mem_cons_self a rest)
        · rcases ih none 0 x h1 with h2 | ⟨c, hc, _⟩
          · exact Or.inl (List.mem_cons_of_mem a h2)
          · cases hc
    | some c =>
      by_cases ha : isSymB a = true
      · rw [csAux, if_pos ha] at h
        rcases ih (some c) (n + 1) x h with h1 | ⟨c2, hc2, hx⟩
        · exact Or.inl (List.mem_cons_of_mem a h1)
        · cases hc2
          exact Or.inr ⟨c, rfl, hx⟩
      · rw [csAux, if_neg ha] at h
        rcases List.mem_append.1 h with h1 | h1
        · by_cases hn : n = 1
          · rw [if_pos hn] at h1
            simp at h1
            exact Or.inr ⟨c, rfl, h1⟩
          · rw [if_neg hn] at h1
            simp at h1
        · rcases List.mem_cons.1 h1 with h2 | h2
          · exact Or.inl (h2 ▸ List.mem_cons_self a rest)
          · rcases ih none 0 x h2 with h3 | ⟨c2, hc2, _⟩
            · exact Or.inl (List.mem_cons_of_mem a h3)
            · cases hc2

theorem mem_collapseWsAux :
    ∀ (l : List Char) b x, x ∈ collapseWsAux b l → x = ' ' ∨ x ∈ l := by
  intro l
  induction l with
  | nil => intro b x h; simp [collapseWsAux] at h
  | cons c rest ih =>
    intro b x h
    by_cases hw : isWsB c = true
    · cases b
      · rw [collapseWsAux, if_pos hw, if_neg (by simp : ¬(false = true))] at h
        rcases List.mem_cons.1 h with h1 | h1
        · exact Or.inl h1
        · rcases ih true x h1 with h2 | h2
          · exact Or.inl h2
          · exact Or.inr (List.mem_cons_of_mem c h2)
      · rw [collapseWsAux, if_pos hw, if_pos rfl] at h
        rcases ih true x h with h2 | h2
        · exact Or.inl h2
        · exact Or.inr (List.mem_cons_of_mem c h2)
    · rw [collapseWsAux, if_neg hw] at h
      rcases List.mem_cons.1 h with h1 | h1
      · exact Or.inr (h1 ▸ List.mem_cons_self c rest)
      · rcases ih false x h1 with h2 | h2
        · exact Or.inl h2
        · exact Or.inr (List.mem_cons_of_mem c h2)

/-- No character of the cleaner's output is a line break: the input was
split on `'\n'` and the pieces were re-joined with spaces. -/
theorem cleanCore_no_nl (kws : List String) (s : List Char) :
    ∀ c ∈ cleanCore kws s, c ≠ '\n' := by
  intro c hc hn
  subst hn
  have h1 : '\n' ∈ collapseWsAux false
      (csAux none 0 (joinSpace (keptLines kws s))) := mem_stripL _ _ hc
  rcases mem_collapseWsAux _ false '\n' h1 with h2 | h2
  · exact absurd h2 (by simp)
  rcases mem_csAux _ none 0 '\n' h2 with h3 | ⟨_, hc2, _⟩
  · rcases mem_joinSpace _ '\n' h3 with h4 | ⟨l, hl, hx⟩
    · exact absurd h4 (by simp)
    · have hl2 : l ∈ (splitNl s).map stripL := List.mem_of_mem_filter hl
      rcases List.mem_map.1 hl2 with ⟨piece, hpiece, hstrip⟩
      exact mem_splitNl_not_nl s piece hpiece '\n'
        (mem_stripL piece '\n' (hstrip ▸ hx)) rfl
  · cases hc2

/-- The cleaner on the empty string. -/
theorem cleanCore_nil (kws : List String) : cleanCore kws [] = [] := rfl

/-- If every non-empty stripped line of the input fails the per-line
filter, nothing is kept, and the cleaner returns the empty string. -/
theorem cleanCore_eq_nil_of_no_keep (kws : List String) (text : List Char)
    (h : ∀ l ∈ splitNl text, keepLineB kws (stripL l) = false) :
    cleanCore kws text = [] := by
  have hkept : keptLines kws text = [] := by
    rw [keptLines, List.filter_eq_nil_iff]
    intro a ha
    rcases List.mem_map.1 ha with ⟨piece, hpiece, hstrip⟩
    rw [← hstrip]
    simp [h piece hpiece]
  rw [cleanCore, hkept]
  rfl

/-- Conditional idempotence of the cleaner: if the output is empty, or
survives the per-line filter when fed back in as a single line, cleaning
it again leaves it unchanged. -/
theorem cleanCore_idem (kws : List String) (s : List Char)
    (h : cleanCore kws s = [] ∨ keepLineB kws (cleanCore kws s) = true) :
    cleanCore kws (cleanCore kws s) = cleanCore kws s := by
  rcases h with h | h
  · rw [h]
    rfl
  · have hnn : ∀ c ∈ cleanCore kws s, c ≠ '\n' := cleanCore_no_nl kws s
    have hsplit : splitNl (cleanCore kws s) = [cleanCore kws s] :=
      splitNl_eq_self _ hnn
    have hstrip : stripL (cleanCore kws s) = cleanCore kws s := by
      show stripL (stripL (collapseWs (collapseSyms (joinSpace (keptLines kws s)))))
        = stripL (collapseWs (collapseSyms (joinSpace (keptLines kws s))))
      exact stripL_idem _
    have hsym : noAdj isSymB (cleanCore kws s) = true := by
      have h1 : noAdj isSymB (collapseSyms (joinSpace (keptLines kws s))) = true :=
        (noAdj_sym_csAux _).1
      have h2 : noAdj isSymB (collapseWs (collapseSyms (joinSpace (keptLines kws s)))) = true :=
        noAdj_sym_collapseWsAux _ false h1
      exact noAdj_stripR isSymB _ (noAdj_dropWhile isWsB isSymB _ h2)
    have hall : (cleanCore kws s).all (fun c => !isWsB c || c == ' ') = true := by
      have h2 := all_not_ws_or_space_collapseWsAux
        (collapseSyms (joinSpace (keptLines kws s))) false
      exact all_stripR _ _ (all_dropWhile isWsB _ _ h2)
    have hwadj : noAdj isWsB (cleanCore kws s) = true := by
      have h2 := noAdj_ws_collapseWsAux
        (collapseSyms (joinSpace (keptLines kws s))) false
      exact noAdj_stripR isWsB _ (noAdj_dropWhile isWsB isWsB _ h2)
    have hkept : keptLines kws (cleanCore kws s) = [cleanCore kws s] := by
      rw [keptLines, hsplit, List.map_cons, List.map_nil, hstrip,
          List.filter_cons, if_pos h]
      rfl
    show stripL (collapseWs (collapseSyms (joinSpace (keptLines kws (cleanCore kws s)))))
      = cleanCore kws s
    rw [hkept]
    have hj : joinSpace [cleanCore kws s] = cleanCore kws s := rfl
    rw [hj, show collapseSyms (cleanCore kws s) = cleanCore kws s from
        collapseSyms_id _ hsym,
      show collapseWs (cleanCore kws s) = cleanCore kws s from
        collapseWs_id _ hall hwadj]
    exact hstrip

/-! ## Lemmas for the deduplication claim -/

theorem pairwiseDistinct_iff_nodup :
    ∀ (l : List String), pairwiseDistinct l = true ↔ l.Nodup := by
  intro l
  induction l with
  | nil => simp [pairwiseDistinct]
  | cons x rest ih =>
    rw [pairwiseDistinct, Bool.and_eq_true, List.nodup_cons, ← ih]
    have hc : rest.contains x = true ↔ x ∈ rest := List.elem_iff
    constructor
    · rintro ⟨h1, h2⟩
      rw [Bool.not_eq_true'] at h1
      refine ⟨fun hm => ?_, h2⟩
      rw [hc.2 hm] at h1
      exact Bool.noConfusion h1
    · rintro ⟨h1, h2⟩
      refine ⟨?_, h2⟩
      rw [Bool.not_eq_true']
      cases hb : rest.contains x with
      | false => rfl
      | true => exact absurd (hc.1 hb) h1

theorem dedupeStep_nodup :
    ∀ (batch acc : List RawReview),
      (acc.map RawReview.raw_text).Nodup →
      ((dedupeStep acc batch).map RawReview.raw_text).Nodup := by
  intro batch
  induction batch with
  | nil => intro acc h; exact h
  | cons r bs ih =>
    intro acc h
    rw [dedupeStep, List.foldl_cons]
    by_cases hmem : acc.any (fun x => x.raw_text == r.raw_text) = true
    · rw [if_pos hmem]
      exact ih acc h
    · rw [if_neg hmem]
      apply ih
      rw [List.map_append, List.map_cons, List.map_nil]
      rw [List.nodup_append]
      refine ⟨h, List.nodup_singleton _, ?_⟩
      intro a ha hb
      simp only [List.mem_singleton] at hb
      subst hb
      rcases List.mem_map.1 ha with ⟨x, hx, hxa⟩
      apply hmem
      rw [List.any_eq_true]
      exact ⟨x, hx, by rw [hxa]; simp⟩

theorem crawlCollect_nodup (batches : List (List RawReview)) :
    ((batches.foldl dedupeStep []).map RawReview.raw_text).Nodup := by
  suffices hgen : ∀ acc, (acc.map RawReview.raw_text).Nodup →
      ((batches.foldl dedupeStep acc).map RawReview.raw_text).Nodup by
    exact hgen [] (by simp)
  induction batches with
  | nil => intro acc h; exact h
  | cons b bs ih =>
    intro acc h
    rw [List.foldl_cons]
    exact ih (dedupeStep acc b) (dedupeStep_nodup b acc h)

/-! ## Claim theorems -/

/-- **C7** (confirmed).  Applying the Text Cleaner — in both of its
implementations — to the input `"리뷰 56\n사진 164\n맛있어요\n팔로워 3"`
returns exactly `"맛있어요"`: the first, second and fourth lines match the
noise patterns `^리뷰\s+\d+`, `^사진\s+\d+` and `팔로워?\s+\d+`. -/
theorem c7_scenario_clean :
    CrawlerService.clean_review_text "리뷰 56\n사진 164\n맛있어요\n팔로워 3" = "맛있어요" ∧
    clean_review_text "리뷰 56\n사진 164\n맛있어요\n팔로워 3" = "맛있어요" := by
  constructor <;> decide

/-- **C1** (counterexample).  On the input `"12++34"` the cleaner keeps
the line (it is not purely numeric and matches no noise pattern), but the
symbol-collapsing pass `re.sub(r'[+※~]{2,}', '')` then deletes `++`,
producing the output `"1234"` — a line consisting purely of digits.  So
the returned string does contain a purely-numeric line, contradicting the
claim. -/
theorem c1_counterexample :
    CrawlerService.clean_review_text "12++34" = "1234" ∧
    (splitNl (CrawlerService.clean_review_text "12++34").data).any pyAllDigits = true := by
  constructor <;> decide

/-- **C1** (amended).  Every line the cleaner's per-line filter keeps —
the lines whose join forms the output — matches no noise pattern and is
not purely numeric.  (The joined and symbol-collapsed output string
itself can nevertheless match a pattern or be purely numeric, as the
counterexample shows.) -/
theorem c1_kept_lines_no_noise (kws : List String) (text : List Char)
    (l : List Char) (hl : l ∈ keptLines kws text) :
    isNoiseB l = false ∧ pyAllDigits l = false := by
  have hk : keepLineB kws l = true := List.of_mem_filter hl
  rw [keepLineB] at hk
  simp only [Bool.and_eq_true, Bool.not_eq_true'] at hk
  exact ⟨hk.1.2, hk.1.1.2⟩

/-- Witness for the amended C1: `"맛있어요"` is a kept line of the input
`"맛있어요"`, and indeed matches no noise pattern and is not numeric. -/
theorem c1_kept_lines_no_noise_witness :
    "맛있어요".data ∈ keptLines serviceShortKeywords "맛있어요".data ∧
    isNoiseB "맛있어요".data = false ∧ pyAllDigits "맛있어요".data = false :=
  ⟨by decide, c1_kept_lines_no_noise serviceShortKeywords "맛있어요".data
    "맛있어요".data (by decide)⟩

/-- **C2** (counterexample).  `clean` is not idempotent: on
`"ab팔로\n1234cd"` both lines are kept and the output is
`"ab팔로 1234cd"`, but the join has created a match of the noise pattern
`팔로워?\s+\d+` across the line boundary, so cleaning the output again
drops it entirely and yields `""`. -/
theorem c2_counterexample :
    CrawlerService.clean_review_text (CrawlerService.clean_review_text "ab팔로\n1234cd") ≠
    CrawlerService.clean_review_text "ab팔로\n1234cd" := by
  decide

/-- **C2** (amended).  The cleaner is idempotent on every input whose
output is empty or itself survives the per-line filter (matches no noise
pattern, is not purely numeric, is not a quoted UI chip, and is longer
than 3 characters).  This covers both implementations, which are
`cleanCore` at their respective keyword lists. -/
theorem c2_idempotent_when_output_clean (kws : List String) (s : List Char)
    (h : cleanCore kws s = [] ∨ keepLineB kws (cleanCore kws s) = true) :
    cleanCore kws (cleanCore kws s) = cleanCore kws s :=
  cleanCore_idem kws s h

/-- Witness for the amended C2 at the concrete input of the C7 scenario,
whose output `"맛있어요"` survives the per-line filter. -/
theorem c2_idempotent_when_output_clean_witness :
    cleanCore serviceShortKeywords
        (cleanCore serviceShortKeywords "리뷰 56\n사진 164\n맛있어요\n팔로워 3".data)
      = cleanCore serviceShortKeywords "리뷰 56\n사진 164\n맛있어요\n팔로워 3".data :=
  c2_idempotent_when_output_clean serviceShortKeywords
    "리뷰 56\n사진 164\n맛있어요\n팔로워 3".data (Or.inr (by decide))

/-- **C8** (confirmed).  If every line of the raw input is, after
stripping, empty or a match of at least one noise pattern, then no line
survives the per-line filter and both implementations of the Text
Cleaner return the empty string. -/
theorem c8_all_noise_gives_empty (s : String)
    (h : ∀ l ∈ splitNl s.data, stripL l = [] ∨ isNoiseB (stripL l) = true) :
    CrawlerService.clean_review_text s = "" ∧ clean_review_text s = "" := by
  have hcore : ∀ kws, cleanCore kws s.data = [] := by
    intro kws
    apply cleanCore_eq_nil_of_no_keep
    intro l hl
    rcases h l hl with h1 | h1
    · rw [h1]
      rfl
    · simp [keepLineB, h1]
  constructor
  · show String.mk (cleanCore serviceShortKeywords s.data) = ""
    rw [hcore]
  · show String.mk (cleanCore playwrightShortKeywords s.data) = ""
    rw [hcore]

/-- Witness for C8: the input `"리뷰 56\n사진 164"` has only noise lines
and cleans to the empty string. -/
theorem c8_all_noise_gives_empty_witness :
    CrawlerService.clean_review_text "리뷰 56\n사진 164" = "" ∧
    clean_review_text "리뷰 56\n사진 164" = "" :=
  c8_all_noise_gives_empty "리뷰 56\n사진 164" (by decide)

/-- **C5** (confirmed).  Within one platform collection run — modelled as
the fold of the duplicate-dropping pass over the successive scroll
batches, followed by `reviews[:max_reviews]` — the returned list's
`raw_text` values are pairwise distinct: a review whose raw text equals
that of a previously collected review is dropped. -/
theorem c5_dedup_raw_texts_distinct (batches : List (List RawReview))
    (maxReviews : Nat) :
    pairwiseDistinct ((crawlNaverCollect batches maxReviews).map RawReview.raw_text) = true := by
  rw [pairwiseDistinct_iff_nodup]
  rw [crawlNaverCollect, List.map_take]
  exact (crawlCollect_nodup batches).sublist (List.take_sublist _ _)

/-! ## Lemmas for the report claims -/

theorem filterMap_rating_filter (reviews : List RevT) :
    (reviews.filter (fun r => r.rating.isSome)).filterMap (fun r => r.rating)
      = reviews.filterMap (fun r => r.rating) := by
  induction reviews with
  | nil => rfl
  | cons r rs ih =>
    cases hr : r.rating with
    | none => simp [List.filter_cons, List.filterMap_cons, hr, ih]
    | some v => simp [List.filter_cons, List.filterMap_cons, hr, ih]

/-- **C10** (confirmed).  The average-rating computation is total and
considers only non-null ratings: in both implementations it is invariant
under discarding the reviews whose rating is null, and it returns `0.0`
(rather than dividing by zero) whenever no review carries a rating. -/
theorem c10_avg_rating_total (reviews : List RevT) :
    LLMService.calculate_avg_rating reviews
      = LLMService.calculate_avg_rating (reviews.filter (fun r => r.rating.isSome)) ∧
    (reviews.filterMap (fun r => r.rating) = [] →
      LLMService.calculate_avg_rating reviews = 0) ∧
    PersonaGenerator.calculate_avg_rating reviews
      = PersonaGenerator.calculate_avg_rating (reviews.filter (fun r => r.rating.isSome)) ∧
    (reviews.filterMap (fun r => r.rating) = [] →
      PersonaGenerator.calculate_avg_rating reviews = 0) := by
  refine ⟨?_, ?_, ?_, ?_⟩
  · simp [LLMService.calculate_avg_rating, filterMap_rating_filter]
  · intro h
    simp [LLMService.calculate_avg_rating, h]
  · simp [PersonaGenerator.calculate_avg_rating, filterMap_rating_filter]
  · intro h
    simp [PersonaGenerator.calculate_avg_rating, h]

/-- Witness for C10: a single review with a null rating averages to 0. -/
theorem c10_avg_rating_total_witness :
    (([⟨"r", "t", none, 0⟩] : List RevT).filterMap (fun r => r.rating) = []) ∧
    LLMService.calculate_avg_rating [⟨"r", "t", none, 0⟩] = 0 :=
  ⟨rfl, (c10_avg_rating_total [⟨"r", "t", none, 0⟩]).2.1 rfl⟩

/-- **C4** (confirmed).  Every execution trace of the background routine
satisfies the task state machine: the only transitions taken are
`pending → processing`, `processing → processing` with non-decreasing
progress, and `processing → {completed, failed}`, and a state whose
status is terminal is never followed by another state. -/
theorem c4_trace_state_machine (env : Env) : traceOk (taskTrace env) = true := by
  rw [taskTrace]
  rcases hc : env.crawl with e | reviews
  · simp only [processAnalysisTask, hc]
    rfl
  · cases reviews with
    | nil =>
      simp only [processAnalysisTask, hc, List.isEmpty_nil]
      rfl
    | cons r rs =>
      rcases ha : env.analysis with e | aout
      · simp only [processAnalysisTask, hc, ha, List.isEmpty_cons]
        rfl
      · cases aout with
        | err e =>
          simp only [processAnalysisTask, hc, ha, List.isEmpty_cons]
          rfl
        | res ar =>
          rcases hg : LLMService.generate_full_report env.llm env.store_name ar
            with e | rep
          · simp only [processAnalysisTask, hc, ha, hg, List.isEmpty_cons]
            rfl
          · simp only [processAnalysisTask, hc, ha, hg, List.isEmpty_cons]
            rfl

/-- **C3** (confirmed).  If the collection stage returns zero reviews or
any stage raises an uncaught error, the background routine leaves the
task `failed` at progress 0 with a human-readable message and an empty
result, and it enters no stage beyond the failing one. -/
theorem c3_failure_path (env : Env)
    (h : env.crawl = .ok [] ∨ (∃ e, env.crawl = .error e) ∨
         (∃ rs e, env.crawl = .ok rs ∧ rs ≠ [] ∧ env.analysis = .error e) ∨
         (∃ rs ar e, env.crawl = .ok rs ∧ rs ≠ [] ∧
            env.analysis = .ok (.res ar) ∧
            LLMService.generate_full_report env.llm env.store_name ar = .error e)) :
    (finalTask env).status = .failed ∧
    (finalTask env).progress = 0 ∧
    (finalTask env).result = none ∧
    ((finalTask env).message = "리뷰를 찾을 수 없습니다." ∨
      ∃ e, (finalTask env).message = "서버 내부 오류: " ++ e) ∧
    (env.crawl = .ok [] ∨ (∃ e, env.crawl = .error e) →
      executedStages env = [Stage.collect]) ∧
    ((∃ rs e, env.crawl = .ok rs ∧ rs ≠ [] ∧ env.analysis = .error e) →
      executedStages env = [Stage.collect, Stage.analyze]) ∧
    ((∃ rs ar e, env.crawl = .ok rs ∧ rs ≠ [] ∧ env.analysis = .ok (.res ar) ∧
        LLMService.generate_full_report env.llm env.store_name ar = .error e) →
      executedStages env = [Stage.collect, Stage.analyze, Stage.generate]) := by
  rcases h with h1 | ⟨e, h1⟩ | ⟨rs, e, h1, hne, h2⟩ | ⟨rs, ar, e, h1, hne, h2, h3⟩
  · refine ⟨?_, ?_, ?_, ?_, ?_, ?_, ?_⟩
    · simp [finalTask, taskTrace, processAnalysisTask, h1, failUpd]
    · simp [finalTask, taskTrace, processAnalysisTask, h1, failUpd]
    · simp [finalTask, taskTrace, processAnalysisTask, h1, failUpd, initialTask]
    · simp [finalTask, taskTrace, processAnalysisTask, h1, failUpd]
    · intro _
      simp [executedStages, processAnalysisTask, h1]
    · rintro ⟨rs, e, hrs, hne, _⟩
      rw [h1] at hrs
      injection hrs with h'
      exact absurd h'.symm hne
    · rintro ⟨rs, ar, e, hrs, hne, _, _⟩
      rw [h1] at hrs
      injection hrs with h'
      exact absurd h'.symm hne
  · refine ⟨?_, ?_, ?_, ?_, ?_, ?_, ?_⟩
    · simp [finalTask, taskTrace, processAnalysisTask, h1, failUpd]
    · simp [finalTask, taskTrace, processAnalysisTask, h1, failUpd]
    · simp [finalTask, taskTrace, processAnalysisTask, h1, failUpd, initialTask]
    · right
      exact ⟨e, by simp [finalTask, taskTrace, processAnalysisTask, h1, failUpd]⟩
    · intro _
      simp [executedStages, processAnalysisTask, h1]
    · rintro ⟨rs, e', hrs, _, _⟩
      rw [h1] at hrs
      cases hrs
    · rintro ⟨rs, ar, e', hrs, _, _, _⟩
      rw [h1] at hrs
      cases hrs
  · have hie : rs.isEmpty = false := by
      cases rs with
      | nil => exact absurd rfl hne
      | cons a as => rfl
    refine ⟨?_, ?_, ?_, ?_, ?_, ?_, ?_⟩
    · simp [finalTask, taskTrace, processAnalysisTask, h1, h2, hie, failUpd]
    · simp [finalTask, taskTrace, processAnalysisTask, h1, h2, hie, failUpd]
    · simp [finalTask, taskTrace, processAnalysisTask, h1, h2, hie, failUpd, initialTask]
    · right
      exact ⟨e, by simp [finalTask, taskTrace, processAnalysisTask, h1, h2, hie, failUpd]⟩
    · rintro (h' | ⟨e', h'⟩) <;> rw [h1] at h'
      · injection h' with h''
        exact absurd h'' hne
      · cases h'
    · intro _
      simp [executedStages, processAnalysisTask, h1, h2, hie]
    · rintro ⟨rs', ar, e', hrs', _, h2', _⟩
      rw [h2] at h2'
      cases h2'
  · have hie : rs.isEmpty = false := by
      cases rs with
      | nil => exact absurd rfl hne
      | cons a as => rfl
    refine ⟨?_, ?_, ?_, ?_, ?_, ?_, ?_⟩
    · simp [finalTask, taskTrace, processAnalysisTask, h1, h2, h3, hie, failUpd]
    · simp [finalTask, taskTrace, processAnalysisTask, h1, h2, h3, hie, failUpd]
    · simp [finalTask, taskTrace, processAnalysisTask, h1, h2, h3, hie, failUpd, initialTask]
    · right
      exact ⟨e, by simp [finalTask, taskTrace, processAnalysisTask, h1, h2, h3, hie, failUpd]⟩
    · rintro (h' | ⟨e', h'⟩) <;> rw [h1] at h'
      · injection h' with h''
        exact absurd h'' hne
      · cases h'
    · rintro ⟨rs', e', hrs', _, h2'⟩
      rw [h2] at h2'
      cases h2'
    · intro _
      simp [executedStages, processAnalysisTask, h1, h2, h3, hie]

/-- Concrete environment for the C3 witness: the collection stage
returns zero reviews. -/
def envC3 : Env where
  store_name := "가게"
  address := "주소"
  crawl := .ok []
  analysis := .error "unused"
  llm := ⟨fun _ => .error "unused", .error "unused"⟩
  mongoRawSaveFails := false
  mongoResultSaveFails := false

/-- Witness for C3: with an empty collection result the task fails at
progress 0 with an empty result and only the collection stage entered. -/
theorem c3_failure_path_witness :
    (finalTask envC3).status = .failed ∧ (finalTask envC3).progress = 0 ∧
    (finalTask envC3).result = none ∧ executedStages envC3 = [Stage.collect] := by
  have h := c3_failure_path envC3 (Or.inl rfl)
  exact ⟨h.1, h.2.1, h.2.2.1, h.2.2.2.2.1 (Or.inl rfl)⟩

/-! ## Lemmas about the persona loop -/

theorem except_bind_ok {ε α β : Type} (a : α) (f : α → Except ε β) :
    (Except.ok a >>= f) = f a := rfl

theorem except_bind_error {ε α β : Type} (e : ε) (f : α → Except ε β) :
    ((Except.error e : Except ε α) >>= f) = Except.error e := rfl

theorem except_pure {ε α : Type} (a : α) :
    (pure a : Except ε α) = Except.ok a := rfl

theorem buildPersonas_length (env : LLMEnv) (ar : AnalysisResult) (store : String) :
    ∀ (ts : List Int) (idx : Nat) (l : List Persona),
      LLMService.buildPersonas env ar store idx ts = .ok l →
      l.length = ts.length := by
  intro ts
  induction ts with
  | nil =>
    intro idx l h
    rw [LLMService.buildPersonas] at h
    injection h with h'
    rw [← h']
    rfl
  | cons t ts ih =>
    intro idx l h
    rw [LLMService.buildPersonas] at h
    rcases hl : lookupCount ar.topic_counts t with e | count <;>
      rw [hl] at h
    · cases h
    · simp only [except_bind_ok] at h
      by_cases hd : ar.docs_count = 0
      · rw [if_pos hd] at h
        cases h
      · rw [if_neg hd] at h
        rcases hr : LLMService.buildPersonas env ar store (idx + 1) ts with e | rest <;>
          simp only [hr, except_bind_error, except_bind_ok, except_pure] at h
        · cases h
        · injection h with h'
          rw [← h', List.length_cons, ih (idx + 1) rest hr, List.length_cons]

theorem buildPersonas_get (env : LLMEnv) (ar : AnalysisResult) (store : String) :
    ∀ (ts : List Int) (idx : Nat) (l : List Persona),
      LLMService.buildPersonas env ar store idx ts = .ok l →
      ∀ (i : Nat) (t : Int), ts.get? i = some t →
        l.get? i = some (LLMService.mkPersona (idx + i) t
          (match env.topicCall t with
           | .ok d => d
           | .error _ => LLMService.fallbackPersona t)) := by
  intro ts
  induction ts with
  | nil =>
    intro idx l h i t ht
    simp at ht
  | cons t0 ts ih =>
    intro idx l h i t ht
    rw [LLMService.buildPersonas] at h
    rcases hl : lookupCount ar.topic_counts t0 with e | count <;>
      rw [hl] at h
    · cases h
    · simp only [except_bind_ok] at h
      by_cases hd : ar.docs_count = 0
      · rw [if_pos hd] at h
        cases h
      · rw [if_neg hd] at h
        rcases hr : LLMService.buildPersonas env ar store (idx + 1) ts with e | rest <;>
          simp only [hr, except_bind_error, except_bind_ok, except_pure] at h
        · cases h
        · injection h with h'
          rw [← h']
          cases i with
          | zero =>
            rw [List.get?_cons_zero] at ht
            injection ht with ht'
            subst ht'
            rw [List.get?_cons_zero, Nat.add_zero]
            rfl
          | succ i =>
            rw [List.get?_cons_succ] at ht
            rw [List.get?_cons_succ]
            rw [show idx + (i + 1) = (idx + 1) + i by omega]
            exact ih (idx + 1) rest hr i t ht

/-- **C9** (confirmed).  Whatever the clustering stage found, the report
built by `generate_full_report` contains at most 3 personas: the loop
runs over `sorted(topics.keys())[:3]`. -/
theorem c9_at_most_three_personas (env : LLMEnv) (store : String)
    (ar : AnalysisResult) (r : Report)
    (h : LLMService.generate_full_report env store ar = .ok r) :
    r.personas.length ≤ 3 := by
  rw [LLMService.generate_full_report] at h
  rcases hb : LLMService.buildPersonas env ar store 0 (LLMService.selectedTopics ar)
    with e | ps <;> simp only [hb, except_bind_error, except_bind_ok, except_pure] at h
  · cases h
  · injection h with h'
    rw [← h']
    show ps.length ≤ 3
    rw [buildPersonas_length env ar store _ 0 ps hb]
    rw [LLMService.selectedTopics]
    exact List.length_take_le 3 _

/-- Concrete inputs for the C9 witness: one topic, so one persona. -/
def arC9 : AnalysisResult := ⟨[(0, ["국물"])], [(0, 1)], [], 1⟩

/-- Concrete LLM environment for the C9 witness. -/
def llmC9 : LLMEnv := ⟨fun _ => .error "호출 실패", .ok "한 줄 요약"⟩

/-- The report the C9 witness environment produces. -/
def repC9 : Report :=
  ⟨"가게", 0, 1, "한 줄 요약", [LLMService.mkPersona 0 0 (LLMService.fallbackPersona 0)]⟩

/-- Witness for C9 at a concrete analysis result. -/
theorem c9_at_most_three_personas_witness : repC9.personas.length ≤ 3 :=
  c9_at_most_three_personas llmC9 "가게" arC9 repC9 rfl

/-- **C6** (confirmed).  If the persona-generation call for a selected
topic raises (or its content fails to parse), the generated report still
carries, in that topic's slot, the fixed fallback persona — nickname
`고객 그룹 {id}`, tags `["분석 실패"]`, the fixed summary, and the
four-stage journey `explore/visit/eat/share` — and the background run
still finishes with status `completed` and that report as its result. -/
theorem c6_fallback_persona_still_completes (env : Env) (rs : List RawReview)
    (ar : AnalysisResult) (r : Report) (t : Int) (idx : Nat) (m : String)
    (hc : env.crawl = .ok rs) (hne : rs ≠ [])
    (ha : env.analysis = .ok (.res ar))
    (ht : (LLMService.selectedTopics ar).get? idx = some t)
    (hcall : env.llm.topicCall t = .error m)
    (hok : LLMService.generate_full_report env.llm env.store_name ar = .ok r) :
    (finalTask env).status = .completed ∧
    (finalTask env).result = some r ∧
    r.personas.get? idx = some (LLMService.mkPersona idx t (LLMService.fallbackPersona t)) ∧
    (LLMService.mkPersona idx t (LLMService.fallbackPersona t)).nickname
      = "고객 그룹 " ++ toString t ∧
    (LLMService.mkPersona idx t (LLMService.fallbackPersona t)).tags = ["분석 실패"] ∧
    (LLMService.mkPersona idx t (LLMService.fallbackPersona t)).summary
      = "데이터를 분석하는 중 오류가 발생했습니다." ∧
    (LLMService.mkPersona idx t (LLMService.fallbackPersona t)).journey
      = LLMService.fallbackJourney ∧
    LLMService.fallbackJourney.map Prod.fst = ["explore", "visit", "eat", "share"] := by
  have hie : rs.isEmpty = false := by
    cases rs with
    | nil => exact absurd rfl hne
    | cons a as => rfl
  have hpersonas : r.personas.get? idx
      = some (LLMService.mkPersona idx t (LLMService.fallbackPersona t)) := by
    rw [LLMService.generate_full_report] at hok
    rcases hb : LLMService.buildPersonas env.llm ar env.store_name 0
        (LLMService.selectedTopics ar)
      with e | ps <;> simp only [hb, except_bind_error, except_bind_ok, except_pure] at hok
    · cases hok
    · injection hok with h'
      rw [← h']
      show ps.get? idx = _
      have := buildPersonas_get env.llm ar env.store_name _ 0 ps hb idx t ht
      rw [hcall] at this
      rw [Nat.zero_add] at this
      exact this
  refine ⟨?_, ?_, hpersonas, rfl, rfl, rfl, rfl, rfl⟩
  · simp [finalTask, taskTrace, processAnalysisTask, hc, hie, ha, hok]
  · simp [finalTask, taskTrace, processAnalysisTask, hc, hie, ha, hok]

/-- Concrete environment for the C6 witness: a one-topic analysis result
whose persona call raises. -/
def envC6 : Env where
  store_name := "가게"
  address := "주소"
  crawl := .ok [⟨"원문", "본문", none, none, "naver"⟩]
  analysis := .ok (.res arC9)
  llm := llmC9
  mongoRawSaveFails := false
  mongoResultSaveFails := false

/-- Witness for C6: the failing persona call still yields a completed
task whose report carries the fallback persona in slot 0. -/
theorem c6_fallback_persona_still_completes_witness :
    (finalTask envC6).status = .completed ∧
    repC9.personas.get? 0 = some (LLMService.mkPersona 0 0 (LLMService.fallbackPersona 0)) ∧
    LLMService.fallbackJourney.map Prod.fst = ["explore", "visit", "eat", "share"] := by
  have h := c6_fallback_persona_still_completes envC6 [⟨"원문", "본문", none, none, "naver"⟩]
    arC9 repC9 0 0 "호출 실패" rfl (by simp) rfl rfl rfl rfl
  exact ⟨h.1, h.2.2.1, h.2.2.2.2.2.2.2⟩

end Pulse
